import Mathlib

/-!
Verification of the NBA-Analytics tabular cleaning pipeline.

This file gives a shallow embedding of the core cleaning operations of the
repository (column normalisation, season-span parsing, team-code and
player-key derivation, month-abbreviation derivation, numeric coercion,
exact-duplicate removal, and the cache-aware partition writer) and proves
or refutes the specification claims about them.

Machine-level conventions of the embedding:
  - a pandas cell is a `Val`: missing (NaN/NaT), a number, a string, or a
    datetime value (abstracted to a tick count, as pd.to_numeric does);
  - a DataFrame is a `Frame`: an ordered association list of columns, each
    a name together with its list of cell values;
  - for row-wise operations (drop_duplicates) a table is viewed as a list
    of rows (`Row`);
  - string manipulation is done on `List Char` with structural recursion so
    that every definition evaluates inside the kernel;
  - fallible Python code (uncaught exceptions) is modelled with `Except`;
  - the filesystem seen by the writers is an association list from path to
    written content, so the cache policy is a pure state transformation.
-/

namespace NBA

/-- A pandas cell value: missing (NaN/NaT), numeric, string, or datetime
(abstracted to a tick count). -/
inductive Val where
  | na : Val
  | num : Rat → Val
  | str : String → Val
  | date : Nat → Val
deriving DecidableEq, Repr

/-- A row of a table, as compared by DataFrame.drop_duplicates: the tuple of
all of its cell values. -/
abbrev Row := List Val

/-- A DataFrame: ordered columns, each a name with its cell values. -/
abbrev Frame := List (String × List Val)

/-- Does the frame have a column of this name. -/
def hasCol (df : Frame) (n : String) : Bool :=
  df.any (fun c => c.1 = n)

/-- The values of the first column of this name, if present. -/
def getCol (df : Frame) (n : String) : Option (List Val) :=
  (df.find? (fun c => c.1 = n)).map (fun c => c.2)

/-- The values of the column, or the empty column when absent. -/
def getColD (df : Frame) (n : String) : List Val :=
  (getCol df n).getD []

/-- Column assignment, as in pandas: an existing column keeps its position
and is overwritten, a new column is appended at the end. -/
def setCol : Frame → String → List Val → Frame
  | [], n, vs => [(n, vs)]
  | c :: cs, n, vs => if c.1 = n then (n, vs) :: cs else c :: setCol cs n vs

/-- Character-list utilities used by the string transformations. -/
def trimChars (cs : List Char) : List Char :=
  ((cs.dropWhile Char.isWhitespace).reverse.dropWhile Char.isWhitespace).reverse

/-- Replace every occurrence of one character by a replacement string,
modelling pandas Series.str.replace with a one-character pattern. -/
def replaceChar (target : Char) (repl : List Char) (cs : List Char) : List Char :=
  cs.foldr (fun c acc => (if c = target then repl else [c]) ++ acc) []

/-- Split a character list on a separator character (runs of the separator
produce empty pieces, as str.split with an explicit separator does). -/
def splitOnChar (sep : Char) : List Char → List (List Char)
  | [] => [[]]
  | c :: rest =>
    match splitOnChar sep rest with
    | [] => [[c]]
    | h :: t => if c = sep then [] :: h :: t else (c :: h) :: t

/-- The numeric value of a list of decimal digit characters. -/
def digitsVal (cs : List Char) : Nat :=
  cs.foldl (fun acc c => 10 * acc + (c.toNat - 48)) 0

/-- Parse a nonempty all-digit character list as a natural number; models
the digit-string core of Python int(). -/
def parseNatDigits (cs : List Char) : Option Nat :=
  if cs ≠ [] ∧ cs.all Char.isDigit then some (digitsVal cs) else none

/-- Python int(): optional surrounding whitespace, optional sign, then a
nonempty decimal numeral (the forms that arise in this pipeline). -/
def parseIntStr (s : String) : Option Int :=
  match trimChars s.toList with
  | '-' :: r => (parseNatDigits r).map (fun n => -(n : Int))
  | '+' :: r => (parseNatDigits r).map (fun n => (n : Int))
  | r => (parseNatDigits r).map (fun n => (n : Int))

/-- The numeral grammar accepted by pd.to_numeric on a string cell, modelled
as optional whitespace, optional sign, digits, and an optional fractional
part with digits on both sides of the point. -/
def parseNumStr (s : String) : Option Rat :=
  let cs := trimChars s.toList
  let sgnAndRest : Int × List Char :=
    match cs with
    | '-' :: r => (-1, r)
    | '+' :: r => (1, r)
    | r => (1, r)
  let sgn := sgnAndRest.1
  let rest := sgnAndRest.2
  match rest.span (fun c => c ≠ '.') with
  | (intPart, []) => (parseNatDigits intPart).map (fun n => ((sgn * n : Int) : Rat))
  | (intPart, _ :: fracPart) =>
    match parseNatDigits intPart, parseNatDigits fracPart with
    | some n, some f =>
      some ((sgn : Rat) * ((n : Rat) + (f : Rat) / (10 : Rat) ^ fracPart.length))
    | _, _ => none

/-- pd.to_numeric with errors="coerce" on one cell: numbers and missing pass
through, a parseable string becomes its number, an unparseable string
becomes NaN, a datetime becomes its tick count. -/
def toNumericCell : Val → Val
  | .na => .na
  | .num q => .num q
  | .str s =>
    match parseNumStr s with
    | some q => .num q
    | none => .na
  | .date t => .num t

/-- utils.numeric_helpers.coerce_all_numeric: apply pd.to_numeric with
errors="coerce" to every column whose name is not in exclude_cols; the
excluded columns are returned unchanged. -/
def coerce_all_numeric (df : Frame) (exclude_cols : List String) : Frame :=
  df.map (fun c => if c.1 ∈ exclude_cols then c else (c.1, c.2.map toNumericCell))

/-- A column has pandas dtype object or datetime exactly when it holds a
string cell or a datetime cell (a column of only numbers and NaN is a
numeric dtype). -/
def colObjectOrDatetime (vs : List Val) : Bool :=
  vs.any (fun v =>
    match v with
    | .str _ => true
    | .date _ => true
    | _ => false)

/-- df.select_dtypes(include=["object", "datetime"]).columns, the exclusion
set computed at the dtype-based pipeline call sites. -/
def selectObjectDatetime (df : Frame) : List String :=
  (df.filter (fun c => colObjectOrDatetime c.2)).map (fun c => c.1)

/-- The regex extraction str.extract(r"^(\d{4})"): the first four characters
when they are all decimal digits, otherwise missing. -/
def extract4 (s : String) : Option Nat :=
  let cs := s.toList.take 4
  if cs.length = 4 ∧ cs.all Char.isDigit then some (digitsVal cs) else none

/-- _add_season_bounds (clean_player_clutch.py, clean_player_boxscores.py,
clean_adv_boxscores.py, ...): season_start is the leading four digits of the
season string coerced to a number, season_end is season_start + 1; both are
missing when the string does not begin with four digits. -/
def addSeasonBounds (season : String) : Option Nat × Option Nat :=
  match extract4 season with
  | some y => (some y, some (y + 1))
  | none => (none, none)

/-- clean_mvp.py season parsing: season_start = int(s[:4]),
season_end = int(s[-2:]) + 2000, bumped by 100 when that lands before
season_start; missing models the uncaught int() exception. -/
def mvpSeasonSpan (s : String) : Option (Int × Int) :=
  let cs := s.toList
  match parseIntStr (String.mk (cs.take 4)),
        parseIntStr (String.mk (cs.drop (cs.length - 2))) with
  | some a, some b =>
    let e := b + 2000
    some (a, if e ≥ a then e else e + 100)
  | _, _ => none

/-- team_awards_clean.py compute_end: take the part after the last "-";
when it is a two-digit numeral, prepend the first two characters of the
whole label; otherwise use the numeral itself; None when there is no "-"
or the parse fails. -/
def computeEnd (x : String) : Option Int :=
  let txt := trimChars x.toList
  if txt.contains '-' then
    let endPart := (splitOnChar '-' txt).getLastD []
    match parseIntStr (String.mk endPart) with
    | some e =>
      if endPart.length = 2 then parseIntStr (String.mk (txt.take 2 ++ endPart))
      else some e
    | none => none
  else none

/-- team_awards_clean.py season_start: str.slice(0, 4) coerced to int when
the slice is a numeral. -/
def awardsSeasonStart (x : String) : Option Int :=
  parseIntStr (String.mk (x.toList.take 4))

/-- utils.clean_helpers.normalise_cols on one name: strip, lowercase,
replace spaces with underscores, replace percent with pct, replace slash
with underscore, then delete every remaining non-word character. -/
def normaliseOne (c : String) : String :=
  let cs := (trimChars c.toList).map Char.toLower
  let cs := replaceChar ' ' ['_'] cs
  let cs := replaceChar '%' ['p', 'c', 't'] cs
  let cs := replaceChar '/' ['_'] cs
  String.mk (cs.filter (fun ch => ch.isAlphanum || ch = '_'))

/-- utils.clean_helpers.normalise_cols: elementwise normalisation of the
column index. -/
def normalise_cols (cols : List String) : List String :=
  cols.map normaliseOne

/-- Collapse every run of underscores to a single underscore. -/
def collapseUnderscores : List Char → List Char
  | [] => []
  | [c] => [c]
  | c1 :: c2 :: rest =>
    if c1 = '_' ∧ c2 = '_' then collapseUnderscores (c2 :: rest)
    else c1 :: collapseUnderscores (c2 :: rest)

/-- The spec's normalisation algorithm, written from the specification's
words for comparison with normalise_cols: trim; lowercase; percent to pct;
slash to underscore; every run of non-word characters to a single
underscore; collapse repeated underscores; strip edge underscores. -/
def specNormalizeOne (c : String) : String :=
  let cs := (trimChars c.toList).map Char.toLower
  let cs := replaceChar '%' ['p', 'c', 't'] cs
  let cs := replaceChar '/' ['_'] cs
  let mapped := cs.map (fun ch => if ch.isAlphanum || ch = '_' then ch else '_')
  let collapsed := collapseUnderscores mapped
  String.mk (((collapsed.dropWhile (fun ch => ch = '_')).reverse.dropWhile
    (fun ch => ch = '_')).reverse)

/-- Lowercase three-letter month abbreviations, strftime("%b") lowercased. -/
def monthAbbrevs : List String :=
  ["jan", "feb", "mar", "apr", "may", "jun",
   "jul", "aug", "sep", "oct", "nov", "dec"]

/-- The ISO YYYY-MM-DD subset of the date formats accepted by
pd.to_datetime, returning the (year, month) on success. -/
def parseDateStr (s : String) : Option (Nat × Nat) :=
  match splitOnChar '-' (trimChars s.toList) with
  | [y, m, d] =>
    match parseNatDigits y, parseNatDigits m, parseNatDigits d with
    | some yy, some mm, some dd =>
      if y.length = 4 ∧ 1 ≤ mm ∧ mm ≤ 12 ∧ 1 ≤ dd ∧ dd ≤ 31 then some (yy, mm)
      else none
    | _, _, _ => none
  | _ => none

/-- One cell of _month_abbr_series: missing passes through as missing, a
parseable date yields its lowercase month abbreviation, and an unparseable
date raises (pd.to_datetime default errors="raise"). -/
def monthAbbrCell : Option String → Except Unit (Option String)
  | none => .ok none
  | some s =>
    match parseDateStr s with
    | some ym => .ok (some (monthAbbrevs.getD (ym.2 - 1) ""))
    | none => .error ()

/-- _month_abbr_series (clean_adv_boxscores.py):
pd.to_datetime(series).dt.strftime("%b").str.lower(); the first unparseable
cell raises out of the whole call. -/
def month_abbr_series : List (Option String) → Except Unit (List (Option String))
  | [] => .ok []
  | c :: cs =>
    match monthAbbrCell c with
    | .ok v =>
      match month_abbr_series cs with
      | .ok vs => .ok (v :: vs)
      | .error e => .error e
    | .error e => .error e

/-- Decimal digit character of a value below ten. -/
def digitChar (n : Nat) : Char :=
  Char.ofNat (48 + n)

/-- Decimal digits of a natural number, fuel-structured so it evaluates in
the kernel. -/
def natToCharsFuel : Nat → Nat → List Char
  | 0, _ => []
  | fuel + 1, n =>
    if n < 10 then [digitChar n]
    else natToCharsFuel fuel (n / 10) ++ [digitChar (n % 10)]

/-- Decimal digits of a natural number, as Python str(n). -/
def natToChars (n : Nat) : List Char :=
  natToCharsFuel (n + 1) n

/-- Python str(n).zfill(2): left-pad the numeral with zeros to width two. -/
def zfill2 (n : Nat) : List Char :=
  let ds := natToChars n
  if ds.length < 2 then List.replicate (2 - ds.length) '0' ++ ds else ds

/-- Series.str.ljust(9, "0"): right-pad with zeros to width nine. -/
def ljust9 (cs : List Char) : List Char :=
  cs ++ List.replicate (9 - cs.length) '0'

/-- The name tokens used by build_ids (all_players_cleaned.py): lowercase
the display name, delete every character outside lowercase letters and
space, strip, and split on whitespace. -/
def cleanNameTokens (name : String) : List (List Char) :=
  let lowered := name.toList.map Char.toLower
  let kept := lowered.filter (fun c => ('a' ≤ c ∧ c ≤ 'z') ∨ c = ' ')
  (splitOnChar ' ' (trimChars kept)).filter (fun t => t ≠ [])

/-- The collision base of build_ids: the second token (falling back to the
first when the name has a single token) truncated to five characters,
followed by the first token truncated to two; missing when no token
survives the cleaning. -/
def baseOf (name : String) : Option (List Char) :=
  match cleanNameTokens name with
  | [] => none
  | t0 :: rest => some ((rest.headD t0).take 5 ++ t0.take 2)

/-- The key attached to one collision base given the bases of the earlier
rows: one plus the number of equal earlier bases (groupby cumcount),
zero-filled to two digits, appended to the base, right-padded to nine
characters; a missing base yields a missing key. -/
def keyOfBase (prev : List (Option (List Char))) :
    Option (List Char) → Option String
  | none => none
  | some base =>
    some (String.mk (ljust9 (base ++ zfill2 (prev.count (some base) + 1))))

/-- The rank-and-pad step of build_ids: walk the bases in row order and
give each its key relative to the bases seen before it. -/
def rankKeys (prev : List (Option (List Char))) :
    List (Option (List Char)) → List (Option String)
  | [] => []
  | b :: bs => keyOfBase prev b :: rankKeys (prev ++ [b]) bs

/-- build_ids (all_players_cleaned.py): the Basketball-Reference-style short
player key of every display name in the frame, in row order. The source
accesses prefixes[1], the second column of str.split(expand=True): that
column only exists when at least one name in the frame has a second
whitespace token, so when no name does (an empty frame included) the
access raises KeyError, modelled as the error branch. -/
def build_ids (names : List String) : Except Unit (List (Option String)) :=
  if names.any (fun nm => 2 ≤ (cleanNameTokens nm).length) then
    .ok (rankKeys [] (names.map baseOf))
  else
    .error ()

/-- Series.fillna(""): missing becomes the empty string. -/
def fillnaEmpty : Val → Val
  | .na => .str ""
  | v => v

/-- Series.astype(str) on one cell: strings pass through, numbers render as
their numeral, missing renders as "nan", datetimes as their tick count. -/
def astypeStr : Val → String
  | .na => "nan"
  | .num q => if q.den = 1 then toString q.num else toString q
  | .str s => s
  | .date t => toString t

/-- Series.str.upper, on the character list of the string. -/
def strUpper (s : String) : String :=
  String.mk (s.toList.map Char.toUpper)

/-- Series.str.replace(" ", "_") for literal one-character patterns. -/
def spaceToUnderscore (s : String) : String :=
  String.mk (s.toList.map (fun c => if c = ' ' then '_' else c))

/-- _ensure_team (clean_player_clutch.py): guarantee a team column. An
existing team column is upper-cased in place (missing as empty string);
otherwise team_abbreviation is upper-cased, otherwise team_name is
upper-cased with spaces turned to underscores, otherwise team_id is
stringified; when none of the candidates exists the frame is unchanged. -/
def ensure_team (df : Frame) : Frame :=
  if hasCol df "team" then
    setCol df "team"
      ((getColD df "team").map (fun v => .str (strUpper (astypeStr (fillnaEmpty v)))))
  else if hasCol df "team_abbreviation" then
    setCol df "team"
      ((getColD df "team_abbreviation").map
        (fun v => .str (strUpper (astypeStr (fillnaEmpty v)))))
  else if hasCol df "team_name" then
    setCol df "team"
      ((getColD df "team_name").map
        (fun v => .str (spaceToUnderscore (strUpper (astypeStr (fillnaEmpty v))))))
  else if hasCol df "team_id" then
    setCol df "team" ((getColD df "team_id").map (fun v => .str (astypeStr v)))
  else df

/-- DataFrame.drop_duplicates, keep="first": walk the rows keeping a row
exactly when it is not equal to a row already seen. -/
def dropDupAux (seen : List Row) : List Row → List Row
  | [] => []
  | r :: rs =>
    if r ∈ seen then dropDupAux seen rs
    else r :: dropDupAux (r :: seen) rs

/-- DataFrame.drop_duplicates on the rows of a table. -/
def drop_duplicates (rows : List Row) : List Row :=
  dropDupAux [] rows

/-- The specification's description of exact-duplicate removal, written
from the spec's words: keep the row at index i exactly when no earlier row
equals it. -/
def specFirstOccurrences (rows : List Row) : List Row :=
  (List.range rows.length).filterMap (fun i =>
    match rows.get? i with
    | some r => if r ∈ rows.take i then none else some r
    | none => none)

/-- The filesystem seen by the writers: written CSV paths and their rows. -/
abbrev FileSys := List (String × List Row)

/-- The content at a path, when the path exists. -/
def lookupFS (fs : FileSys) (p : String) : Option (List Row) :=
  (fs.find? (fun e => e.1 = p)).map (fun e => e.2)

/-- Write content at a path, overwriting an existing file. -/
def setFS : FileSys → String → List Row → FileSys
  | [], p, d => [(p, d)]
  | e :: es, p, d => if e.1 = p then (p, d) :: es else e :: setFS es p d

/-- _write_csv (clean_player_clutch.py, clean_player_boxscores.py): skip
when the path exists and force is not set, otherwise write; the second
component counts the writes performed (zero or one). -/
def write_csv (fs : FileSys) (path : String) (df : List Row) (force : Bool) :
    FileSys × Nat :=
  if (lookupFS fs path).isSome ∧ force = false then (fs, 0)
  else (setFS fs path df, 1)

/-- A sequence of _write_csv calls, as one cleaning run performs over its
league-wide and partition target paths; counts the writes performed. -/
def run_writes (fs : FileSys) (jobs : List (String × List Row)) (force : Bool) :
    FileSys × Nat :=
  match jobs with
  | [] => (fs, 0)
  | j :: js =>
    let r := write_csv fs j.1 j.2 force
    let rest := run_writes r.1 js force
    (rest.1, r.2 + rest.2)

/-- _write_csv in a world where writing to some paths fails (for example
permission denied): the cache-skip still short-circuits, a write to a bad
path raises, otherwise the write succeeds. -/
def write_csvE (bad : List String) (fs : FileSys) (path : String)
    (df : List Row) (force : Bool) : Except Unit FileSys :=
  if (lookupFS fs path).isSome ∧ force = false then .ok fs
  else if path ∈ bad then .error ()
  else .ok (setFS fs path df)

/-- The per-team mirror loop of _clean_one (clean_player_clutch.py lines
119-129): write each partition in turn; the loop body has no handler, so
the first raised write failure propagates and ends the loop. -/
def write_team_mirrors (bad : List String) (fs : FileSys)
    (jobs : List (String × List Row)) (force : Bool) : Except Unit FileSys :=
  match jobs with
  | [] => .ok fs
  | j :: js =>
    match write_csvE bad fs j.1 j.2 force with
    | .ok fs1 => write_team_mirrors bad fs1 js force
    | .error e => .error e

/-- TEXT_COLS of clean_player_stats.py: the columns kept textual there. -/
def TEXT_COLS : List String :=
  ["player", "player_name", "team", "team_abbreviation", "team_name",
   "team_city", "team_id", "player_id", "player_display_first_last",
   "matchup", "game_id", "wl", "measure_type"]

/-- The exclusion set computed at the clean_player_stats.py call site:
TEXT_COLS intersected with the frame's columns. -/
def playerStatsExclude (df : Frame) : List String :=
  TEXT_COLS.filter (fun c => hasCol df c)

/-! Helper lemmas shared by the claim theorems. -/

theorem filterMap_congrH {α β : Type} (l : List α) (f g : α → Option β)
    (h : ∀ a ∈ l, f a = g a) : l.filterMap f = l.filterMap g := by
  induction l with
  | nil => rfl
  | cons a tl ih =>
    rw [List.filterMap_cons, List.filterMap_cons, h a (List.mem_cons_self a tl),
      ih (fun x hx => h x (List.mem_cons_of_mem a hx))]

/-! C1. The claim says every YYYY-YY label yields season_end = season_start
+ 1 across the season-span derivations, including centurial rollovers.
This holds for _add_season_bounds, but team_awards_clean's compute_end
prepends the label's first two characters to the two-digit suffix, sending
"1999-00" to 1900, and clean_mvp anchors the suffix at 2000, sending
"1998-99" to 2099. -/

/-- C1: the season-span code evaluated at the failing inputs. The
clutch/boxscore derivation gives "1999-00" the claimed span (1999, 2000),
but team_awards_clean's compute_end gives season_end 1900 for the same
label, and clean_mvp's parsing gives "1998-99" the span (1998, 2099);
both contradict season_end == season_start + 1 and even season_end >
season_start. -/
theorem season_span_failing_inputs :
    addSeasonBounds "1999-00" = (some 1999, some 2000) ∧
    addSeasonBounds "2024-25" = (some 2024, some 2025) ∧
    awardsSeasonStart "1999-00" = some 1999 ∧
    computeEnd "1999-00" = some 1900 ∧
    computeEnd "2024-25" = some 2025 ∧
    mvpSeasonSpan "1998-99" = some (1998, 2099) ∧
    mvpSeasonSpan "1999-00" = some (1999, 2000) ∧
    (1900 : Int) < 1999 ∧ (2099 : Int) ≠ 1998 + 1 := by
  decide

/-! C2. The claim describes the normaliser as replacing runs of non-word
characters with a single underscore, collapsing repeated underscores and
stripping edge underscores; normalise_cols instead deletes the non-word
characters outright. -/

/-- C2 counterexample: on the raw name "a-b" the claimed algorithm yields
"a_b" but normalise_cols yields "ab"; on "a  b" the claimed algorithm
yields "a_b" but normalise_cols yields "a__b". -/
theorem normalise_cols_claim_cex :
    normalise_cols ["a-b"] = ["ab"] ∧
    specNormalizeOne "a-b" = "a_b" ∧
    normalise_cols ["a-b"] ≠ ["a_b"] ∧
    normalise_cols ["a  b"] = ["a__b"] ∧
    specNormalizeOne "a  b" = "a_b" := by
  decide

/-- C2 amended: normalise_cols returns a list of the same length and order
in which each name is trimmed, lowercased, spaces become underscores,
percent becomes pct, slash becomes underscore, and every remaining
non-word character is deleted (runs are not replaced by an underscore,
repeated underscores are not collapsed, edge underscores are not
stripped); consequently every character of every output is a word
character. -/
theorem normalise_cols_amended (cols : List String) :
    (normalise_cols cols).length = cols.length ∧
    (∀ i, (normalise_cols cols).get? i =
      (cols.get? i).map (fun c => String.mk
        ((replaceChar '/' ['_'] (replaceChar '%' ['p', 'c', 't']
          (replaceChar ' ' ['_'] ((trimChars c.toList).map Char.toLower)))).filter
          (fun ch => ch.isAlphanum || ch = '_')))) ∧
    (∀ s, s ∈ normalise_cols cols → ∀ c, c ∈ s.toList →
      (c.isAlphanum || c = '_') = true) := by
  refine ⟨List.length_map cols normaliseOne, fun i => List.get?_map normaliseOne cols i, ?_⟩
  intro s hs c hc
  rcases List.mem_map.mp hs with ⟨t, _, rfl⟩
  have hc2 : c ∈ List.filter (fun ch => ch.isAlphanum || ch = '_')
      (replaceChar '/' ['_'] (replaceChar '%' ['p', 'c', 't']
        (replaceChar ' ' ['_'] ((trimChars t.toList).map Char.toLower)))) := hc
  exact (List.mem_filter.mp hc2).2

/-- C2 amended, witness at concrete inputs. -/
theorem normalise_cols_amended_witness :
    (normalise_cols ["FG%", " USG RATE ", "W/L"]).length = 3 ∧
    (normalise_cols ["FG%", " USG RATE ", "W/L"]).get? 1 = some "usg_rate" ∧
    "fgpct" ∈ normalise_cols ["FG%", " USG RATE ", "W/L"] ∧
    (('f' : Char).isAlphanum || 'f' = '_') = true := by
  obtain ⟨h1, h2, h3⟩ := normalise_cols_amended ["FG%", " USG RATE ", "W/L"]
  refine ⟨h1, ?_, ?_, ?_⟩
  · rw [h2 1]; decide
  · decide
  · exact h3 "fgpct" (by decide) 'f' (by decide)

/-! C3. The claim says every derivation fails soft, and in particular that
derive_month_abbrev returns a missing marker on an unparseable date.
_month_abbr_series calls pd.to_datetime with its default errors="raise",
so an unparseable date string raises out of the whole call. -/

/-- C3 counterexample: a parseable date yields its abbreviation and a
missing date stays missing, but one unparseable date string makes the
whole series derivation raise instead of producing a missing marker. -/
theorem month_abbr_claim_cex :
    month_abbr_series [some "2024-01-15", none] =
      Except.ok [some "jan", none] ∧
    month_abbr_series [some "2024-01-15", some "not a date"] =
      Except.error () :=
  ⟨rfl, rfl⟩

/-- C3 amended: when every present date parses, the derivation succeeds,
preserves length, maps missing to missing and each parsed date to its
lowercase three-letter month abbreviation; but as soon as some present
date fails to parse the whole call raises (pd.to_datetime default
errors="raise") instead of returning a missing marker. -/
theorem month_abbr_series_amended (col : List (Option String)) :
    ((∀ s, some s ∈ col → (parseDateStr s).isSome = true) →
      ∃ out, month_abbr_series col = Except.ok out ∧
        out.length = col.length ∧
        (∀ i, col.get? i = some none → out.get? i = some none) ∧
        (∀ i s y m, col.get? i = some (some s) → parseDateStr s = some (y, m) →
          out.get? i = some (some (monthAbbrevs.getD (m - 1) "")))) ∧
    (∀ s, some s ∈ col → parseDateStr s = none →
      month_abbr_series col = Except.error ()) := by
  induction col with
  | nil =>
    refine ⟨fun _ => ⟨[], rfl, rfl, ?_, ?_⟩, ?_⟩
    · intro i h; cases i <;> simp at h
    · intro i s y m h; cases i <;> simp at h
    · intro s hs; simp at hs
  | cons c cs ih =>
    constructor
    · intro h
      obtain ⟨out, hout, hlen, hna, habbr⟩ :=
        ih.1 (fun s hs => h s (List.mem_cons_of_mem c hs))
      match hc : c with
      | none =>
        refine ⟨none :: out, ?_, by simpa using hlen, ?_, ?_⟩
        · simp [month_abbr_series, monthAbbrCell, hout]
        · intro i hi
          match i with
          | 0 => rfl
          | i + 1 => exact hna i (by simpa using hi)
        · intro i s y m hi hp
          match i with
          | 0 => simp at hi
          | i + 1 => exact habbr i s y m (by simpa using hi) hp
      | some s0 =>
        have hp0 : (parseDateStr s0).isSome = true :=
          h s0 (List.mem_cons_self _ _)
        obtain ⟨ym, hym⟩ := Option.isSome_iff_exists.mp hp0
        refine ⟨some (monthAbbrevs.getD (ym.2 - 1) "") :: out, ?_, by simpa using hlen, ?_, ?_⟩
        · simp [month_abbr_series, monthAbbrCell, hym, hout]
        · intro i hi
          match i with
          | 0 => simp at hi
          | i + 1 => exact hna i (by simpa using hi)
        · intro i s y m hi hp
          match i with
          | 0 =>
            simp only [List.get?] at hi
            cases hi
            rw [hp] at hym
            cases hym
            rfl
          | i + 1 => exact habbr i s y m (by simpa using hi) hp
    · intro s hs hnone
      rcases List.mem_cons.mp hs with hs0 | hs1
      · have : monthAbbrCell c = Except.error () := by
          rw [← hs0]
          simp [monthAbbrCell, hnone]
        simp [month_abbr_series, this]
      · have herr := ih.2 s hs1 hnone
        cases hcell : monthAbbrCell c <;>
          simp [month_abbr_series, hcell, herr]

/-- C3 amended, witness: the success branch at a concrete series. -/
theorem month_abbr_series_amended_witness :
    (∀ s, some s ∈ [some "2024-03-02", (none : Option String)] →
      (parseDateStr s).isSome = true) ∧
    ∃ out, month_abbr_series [some "2024-03-02", none] = Except.ok out ∧
      out.length = 2 := by
  have h : ∀ s, some s ∈ [some "2024-03-02", (none : Option String)] →
      (parseDateStr s).isSome = true := by
    intro s hs
    rcases List.mem_cons.mp hs with h0 | h1
    · cases h0; decide
    · simp at h1
  obtain ⟨out, hout, hlen, _, _⟩ :=
    (month_abbr_series_amended [some "2024-03-02", none]).1 h
  exact ⟨h, out, hout, by simpa using hlen⟩

/-! C5. The claim says the team-code derivation upper-cases and replaces
whitespace by underscores for whichever candidate column is used, and
returns the empty string when no candidate exists. _ensure_team only
replaces spaces in the team_name branch, and adds no column at all when no
candidate column exists. -/

/-- C5 counterexample: with a team column holding "new york" the claimed
value is "NEW_YORK" but _ensure_team produces "NEW YORK" (no whitespace
replacement outside the team_name branch); and with no candidate column
the frame is returned without any team column instead of an empty-string
team value. -/
theorem ensure_team_claim_cex :
    ensure_team [("team", [Val.str "new york"])] =
      [("team", [Val.str "NEW YORK"])] ∧
    Val.str "NEW YORK" ≠ Val.str "NEW_YORK" ∧
    ensure_team [("pts", [Val.str "3"])] = [("pts", [Val.str "3"])] ∧
    hasCol (ensure_team [("pts", [Val.str "3"])]) "team" = false := by
  decide

/-- C5 amended: _ensure_team scans the candidate columns by presence in
the priority order team, team_abbreviation, team_name, team_id; the first
two branches upper-case with missing as empty string but keep whitespace,
the team_name branch also turns spaces into underscores, the team_id
branch stringifies without upper-casing, and when no candidate column is
present the frame is returned unchanged, with no team column added. -/
theorem ensure_team_amended (df : Frame) :
    (hasCol df "team" = true →
      ensure_team df = setCol df "team" ((getColD df "team").map
        (fun v => .str (strUpper (astypeStr (fillnaEmpty v)))))) ∧
    (hasCol df "team" = false → hasCol df "team_abbreviation" = true →
      ensure_team df = setCol df "team" ((getColD df "team_abbreviation").map
        (fun v => .str (strUpper (astypeStr (fillnaEmpty v)))))) ∧
    (hasCol df "team" = false → hasCol df "team_abbreviation" = false →
      hasCol df "team_name" = true →
      ensure_team df = setCol df "team" ((getColD df "team_name").map
        (fun v => .str (spaceToUnderscore (strUpper (astypeStr (fillnaEmpty v))))))) ∧
    (hasCol df "team" = false → hasCol df "team_abbreviation" = false →
      hasCol df "team_name" = false → hasCol df "team_id" = true →
      ensure_team df = setCol df "team" ((getColD df "team_id").map
        (fun v => .str (astypeStr v)))) ∧
    (hasCol df "team" = false → hasCol df "team_abbreviation" = false →
      hasCol df "team_name" = false → hasCol df "team_id" = false →
      ensure_team df = df) := by
  refine ⟨fun h1 => ?_, fun h1 h2 => ?_, fun h1 h2 h3 => ?_,
    fun h1 h2 h3 h4 => ?_, fun h1 h2 h3 h4 => ?_⟩ <;>
    simp [ensure_team, h1]
  all_goals simp [h2]
  all_goals simp [h3]
  all_goals simp [h4]

/-- C5 amended, witness: the team branch and the no-candidate branch at
concrete frames. -/
theorem ensure_team_amended_witness :
    (hasCol [("team", [Val.str "bkn"])] "team" = true ∧
      ensure_team [("team", [Val.str "bkn"])] =
        setCol [("team", [Val.str "bkn"])] "team"
          ([Val.str "bkn"].map (fun v => .str (strUpper (astypeStr (fillnaEmpty v)))))) ∧
    (hasCol [("pts", [Val.str "3"])] "team" = false ∧
      ensure_team [("pts", [Val.str "3"])] = [("pts", [Val.str "3"])]) := by
  constructor
  · refine ⟨by decide, ?_⟩
    have h := (ensure_team_amended [("team", [Val.str "bkn"])]).1 (by decide)
    simpa [getColD, getCol] using h
  · refine ⟨by decide, ?_⟩
    exact (ensure_team_amended [("pts", [Val.str "3"])]).2.2.2.2
      (by decide) (by decide) (by decide) (by decide)

/-! Filesystem helper lemmas for the writer claims. -/

theorem lookupFS_setFS_self (fs : FileSys) (p : String) (d : List Row) :
    lookupFS (setFS fs p d) p = some d := by
  induction fs with
  | nil => simp [setFS, lookupFS, List.find?]
  | cons e es ih =>
    by_cases h : e.1 = p
    · simp [setFS, h, lookupFS, List.find?]
    · simp only [setFS, if_neg h]
      simpa [lookupFS, List.find?, h] using ih

theorem lookupFS_setFS_ne (fs : FileSys) (p q : String) (d : List Row)
    (h : q ≠ p) : lookupFS (setFS fs p d) q = lookupFS fs q := by
  have hpq : ¬(p = q) := fun hh => h hh.symm
  induction fs with
  | nil => simp [setFS, lookupFS, List.find?, hpq]
  | cons e es ih =>
    by_cases he : e.1 = p
    · have hq2 : ¬(e.1 = q) := by rw [he]; exact hpq
      simp only [setFS, if_pos he]
      unfold lookupFS
      rw [List.find?_cons_of_neg _ (by simp [hpq]),
        List.find?_cons_of_neg _ (by simp [hq2])]
    · simp only [setFS, if_neg he]
      by_cases heq : e.1 = q
      · unfold lookupFS
        rw [List.find?_cons_of_pos _ (by simp [heq]),
          List.find?_cons_of_pos _ (by simp [heq])]
      · unfold lookupFS
        rw [List.find?_cons_of_neg _ (by simp [heq]),
          List.find?_cons_of_neg _ (by simp [heq])]
        exact ih

theorem write_csv_preserves (fs : FileSys) (p : String) (d : List Row)
    (force : Bool) (q : String)
    (h : (lookupFS fs q).isSome = true ∨ q = p) :
    (lookupFS (write_csv fs p d force).1 q).isSome = true := by
  unfold write_csv
  by_cases hc : (lookupFS fs p).isSome = true ∧ force = false
  · rw [if_pos hc]
    rcases h with h | rfl
    · exact h
    · exact hc.1
  · rw [if_neg hc]
    by_cases hq : q = p
    · subst hq; simp [lookupFS_setFS_self]
    · rw [lookupFS_setFS_ne fs p q d hq]
      rcases h with h | h
      · exact h
      · exact absurd h hq

theorem run_writes_exists (jobs : List (String × List Row)) :
    ∀ (fs : FileSys) (force : Bool) (p : String),
      ((lookupFS fs p).isSome = true ∨ p ∈ jobs.map Prod.fst) →
      (lookupFS (run_writes fs jobs force).1 p).isSome = true := by
  induction jobs with
  | nil =>
    intro fs force p h
    rcases h with h | h
    · exact h
    · simp at h
  | cons j js ih =>
    intro fs force p h
    show (lookupFS (run_writes (write_csv fs j.1 j.2 force).1 js force).1 p).isSome = true
    apply ih
    rcases h with h | h
    · exact Or.inl (write_csv_preserves fs j.1 j.2 force p (Or.inl h))
    · rw [List.map_cons] at h
      rcases List.mem_cons.mp h with h0 | h1
      · exact Or.inl (write_csv_preserves fs j.1 j.2 force p (Or.inr h0))
      · exact Or.inr h1

theorem run_writes_skip_all (jobs : List (String × List Row)) :
    ∀ fs : FileSys, (∀ j ∈ jobs, (lookupFS fs j.1).isSome = true) →
      run_writes fs jobs false = (fs, 0) := by
  induction jobs with
  | nil => intro fs _; rfl
  | cons j js ih =>
    intro fs h
    have hj : write_csv fs j.1 j.2 false = (fs, 0) := by
      unfold write_csv
      rw [if_pos ⟨h j (List.mem_cons_self j js), rfl⟩]
    show (let r := write_csv fs j.1 j.2 false
          let rest := run_writes r.1 js false
          (rest.1, r.2 + rest.2)) = (fs, 0)
    rw [hj]
    have := ih fs (fun x hx => h x (List.mem_cons_of_mem j hx))
    simp [this]

/-! C6. The cache policy of _write_csv and _write_monthly_files: skip when
the target exists and force is not set, always rewrite when force is set,
and a second force=false run over the same jobs performs zero writes and
leaves the filesystem unchanged. -/

/-- C6: the cache policy. An existing path with force=false is skipped and
untouched; with force=true the file is always rewritten; a second
force=false run of the same write sequence performs zero writes and leaves
the filesystem identical. -/
theorem write_cache_policy :
    (∀ (fs : FileSys) (p : String) (d : List Row),
      (lookupFS fs p).isSome = true → write_csv fs p d false = (fs, 0)) ∧
    (∀ (fs : FileSys) (p : String) (d : List Row),
      write_csv fs p d true = (setFS fs p d, 1)) ∧
    (∀ (fs : FileSys) (jobs : List (String × List Row)),
      run_writes (run_writes fs jobs false).1 jobs false =
        ((run_writes fs jobs false).1, 0)) := by
  refine ⟨?_, ?_, ?_⟩
  · intro fs p d h
    unfold write_csv
    rw [if_pos ⟨h, rfl⟩]
  · intro fs p d
    unfold write_csv
    simp
  · intro fs jobs
    apply run_writes_skip_all
    intro j hj
    exact run_writes_exists jobs fs false j.1
      (Or.inr (List.mem_map_of_mem Prod.fst hj))

/-- C6 witness: the cache policy at a concrete filesystem and job list. -/
theorem write_cache_policy_witness :
    (lookupFS [("out.csv", [[Val.str "x"]])] "out.csv").isSome = true ∧
    write_csv [("out.csv", [[Val.str "x"]])] "out.csv" [[Val.str "y"]] false =
      ([("out.csv", [[Val.str "x"]])], 0) ∧
    run_writes (run_writes [] [("a.csv", [[Val.str "r"]]), ("b.csv", [[Val.str "s"]])] false).1
        [("a.csv", [[Val.str "r"]]), ("b.csv", [[Val.str "s"]])] false =
      ((run_writes [] [("a.csv", [[Val.str "r"]]), ("b.csv", [[Val.str "s"]])] false).1, 0) := by
  refine ⟨by decide, ?_, ?_⟩
  · exact write_cache_policy.1 [("out.csv", [[Val.str "x"]])] "out.csv"
      [[Val.str "y"]] (by decide)
  · exact write_cache_policy.2.2 []
      [("a.csv", [[Val.str "r"]]), ("b.csv", [[Val.str "s"]])]

/-! C7. The claim says a failed partition write is a localized warning and
the remaining partitions are still written. The per-team loop of
_clean_one has no handler: the first raised write failure propagates and
ends the loop, so the remaining partitions are not written. -/

/-- C7 counterexample: with two partition jobs where only the first path
is unwritable, the whole mirror loop raises and no filesystem results, so
the second partition (which on its own would have been written) is never
written; the claim's localized-warning behavior is false on the code. -/
theorem partition_write_claim_cex :
    write_team_mirrors ["teams/AA/f.csv"] []
      [("teams/AA/f.csv", [[Val.str "a"]]), ("teams/BB/f.csv", [[Val.str "b"]])]
      true = Except.error () ∧
    write_csvE ["teams/AA/f.csv"] [] "teams/BB/f.csv" [[Val.str "b"]] true =
      Except.ok [("teams/BB/f.csv", [[Val.str "b"]])] :=
  ⟨rfl, rfl⟩

/-- C7 amended: when a partition write raises (target not cache-skipped and
its path unwritable), the whole per-team mirror loop raises: none of the
remaining partitions is written and the failure propagates out of the
loop instead of being contained as a per-partition warning. -/
theorem write_team_mirrors_amended (bad : List String) (fs : FileSys)
    (p : String) (d : List Row) (js : List (String × List Row)) (force : Bool)
    (hskip : ¬((lookupFS fs p).isSome = true ∧ force = false))
    (hbad : p ∈ bad) :
    write_team_mirrors bad fs ((p, d) :: js) force = Except.error () := by
  show (match write_csvE bad fs p d force with
        | .ok fs1 => write_team_mirrors bad fs1 js force
        | .error e => .error e) = Except.error ()
  unfold write_csvE
  rw [if_neg hskip, if_pos hbad]

/-- C7 amended, witness at a concrete unwritable first partition. -/
theorem write_team_mirrors_amended_witness :
    ¬((lookupFS [] "teams/AA/g.csv").isSome = true ∧ true = false) ∧
    "teams/AA/g.csv" ∈ ["teams/AA/g.csv"] ∧
    write_team_mirrors ["teams/AA/g.csv"] []
      [("teams/AA/g.csv", [[Val.na]]), ("teams/BB/g.csv", [[Val.na]])] true =
      Except.error () :=
  ⟨by decide, by decide,
    write_team_mirrors_amended ["teams/AA/g.csv"] [] "teams/AA/g.csv"
      [[Val.na]] [("teams/BB/g.csv", [[Val.na]])] true (by decide) (by decide)⟩

/-! C8. coerce_all_numeric is a total transformation that keeps every
column name in order, keeps every column's length (no row is dropped or
added), leaves excluded columns untouched, and in every other column maps
parseable strings to numbers, unparseable strings to the missing marker,
and numbers and missing to themselves. -/

/-- C8: coerce_all_numeric never raises and never drops a row: the column
names and order are preserved, each column keeps its length, every
excluded column is returned unchanged, and in every non-excluded column a
parseable string becomes its number, an unparseable string becomes the
missing marker, and numbers and missing cells pass through. -/
theorem coerce_all_numeric_safe (df : Frame) (exclude : List String) :
    (coerce_all_numeric df exclude).map Prod.fst = df.map Prod.fst ∧
    ∀ i c, df.get? i = some c → ∃ vs,
      (coerce_all_numeric df exclude).get? i = some (c.1, vs) ∧
      vs.length = c.2.length ∧
      (c.1 ∈ exclude → vs = c.2) ∧
      (c.1 ∉ exclude →
        (∀ j s, c.2.get? j = some (.str s) →
          vs.get? j = some (match parseNumStr s with
            | some q => .num q
            | none => .na)) ∧
        (∀ j q, c.2.get? j = some (.num q) → vs.get? j = some (.num q)) ∧
        (∀ j, c.2.get? j = some .na → vs.get? j = some .na)) := by
  constructor
  · unfold coerce_all_numeric
    rw [List.map_map]
    apply List.map_congr_left
    intro c _
    by_cases h : c.1 ∈ exclude <;> simp [h]
  · intro i c hc
    have hmap : (coerce_all_numeric df exclude).get? i =
        some (if c.1 ∈ exclude then c else (c.1, c.2.map toNumericCell)) := by
      unfold coerce_all_numeric
      rw [List.get?_map, hc]
      rfl
    by_cases h : c.1 ∈ exclude
    · refine ⟨c.2, ?_, rfl, fun _ => rfl, fun hn => absurd h hn⟩
      rw [hmap, if_pos h]
    · refine ⟨c.2.map toNumericCell, ?_, List.length_map c.2 toNumericCell,
        fun hx => absurd hx h, fun _ => ⟨?_, ?_, ?_⟩⟩
      · rw [hmap, if_neg h]
      · intro j s hj
        rw [List.get?_map, hj]
        rfl
      · intro j q hj
        rw [List.get?_map, hj]
        rfl
      · intro j hj
        rw [List.get?_map, hj]
        rfl

/-- C8 witness: a frame with an excluded text column and a mixed column of
parseable and unparseable strings, numbers and missing cells. -/
theorem coerce_all_numeric_safe_witness :
    (coerce_all_numeric
        [("player", [Val.str "LeBron James"]),
         ("pts", [Val.str "30", Val.str "x", Val.num 3, Val.na])]
        ["player"]).map Prod.fst = ["player", "pts"] ∧
    ∃ vs,
      (coerce_all_numeric
        [("player", [Val.str "LeBron James"]),
         ("pts", [Val.str "30", Val.str "x", Val.num 3, Val.na])]
        ["player"]).get? 1 = some ("pts", vs) ∧ vs.length = 4 := by
  obtain ⟨h1, h2⟩ := coerce_all_numeric_safe
    [("player", [Val.str "LeBron James"]),
     ("pts", [Val.str "30", Val.str "x", Val.num 3, Val.na])]
    ["player"]
  obtain ⟨vs, hvs, hlen, -, -⟩ :=
    h2 1 ("pts", [Val.str "30", Val.str "x", Val.num 3, Val.na]) rfl
  exact ⟨h1, vs, hvs, hlen⟩

/-! C10. The claim says every pipeline call site passes exactly the
object/datetime columns as the exclusion set, so the coercion never
touches a string cell. That is true of the select_dtypes call sites — and
there the whole step is the identity — but clean_player_stats.py,
clean_player_shooting.py and text.py pass name-based exclusion sets under
which string cells are coerced to missing. -/

/-- C10 counterexample: at the clean_player_stats.py call site the
exclusion set is TEXT_COLS intersected with the frame's columns, which is
not the object/datetime column set: the string season column is not
excluded and its cell "2024-25" is coerced to the missing marker. -/
theorem coerce_exclusion_claim_cex :
    playerStatsExclude
      [("player", [Val.str "LeBron James"]), ("season", [Val.str "2024-25"])] =
      ["player"] ∧
    selectObjectDatetime
      [("player", [Val.str "LeBron James"]), ("season", [Val.str "2024-25"])] =
      ["player", "season"] ∧
    coerce_all_numeric
      [("player", [Val.str "LeBron James"]), ("season", [Val.str "2024-25"])]
      (playerStatsExclude
        [("player", [Val.str "LeBron James"]), ("season", [Val.str "2024-25"])]) =
      [("player", [Val.str "LeBron James"]), ("season", [Val.na])] ∧
    Val.na ≠ Val.str "2024-25" := by
  decide

/-- C10 amended: at the call sites whose exclusion set is
select_dtypes(include=["object", "datetime"]) the coercion step is the
identity on the whole frame — every string-valued or datetime column is
excluded and the remaining columns hold only numbers and missing cells,
on which pd.to_numeric is the identity. -/
theorem coerce_dtype_exclusion_identity (df : Frame) :
    coerce_all_numeric df (selectObjectDatetime df) = df := by
  have hmapid : ∀ vs : List Val, colObjectOrDatetime vs = false →
      vs.map toNumericCell = vs := by
    intro vs h
    induction vs with
    | nil => rfl
    | cons v vt ih =>
      rw [colObjectOrDatetime, List.any_cons, Bool.or_eq_false_iff] at h
      have ht := ih (by rw [colObjectOrDatetime]; exact h.2)
      cases v with
      | na => rw [List.map_cons, ht]; rfl
      | num q => rw [List.map_cons, ht]; rfl
      | str s => exact absurd h.1 (by simp)
      | date t => exact absurd h.1 (by simp)
  have main : ∀ (l : Frame) (ex : List String),
      (∀ c ∈ l, colObjectOrDatetime c.2 = true → c.1 ∈ ex) →
      coerce_all_numeric l ex = l := by
    intro l ex h
    induction l with
    | nil => rfl
    | cons c cs ih =>
      unfold coerce_all_numeric
      rw [List.map_cons]
      have htail : coerce_all_numeric cs ex = cs :=
        ih (fun x hx => h x (List.mem_cons_of_mem c hx))
      unfold coerce_all_numeric at htail
      rw [htail]
      by_cases hc : c.1 ∈ ex
      · rw [if_pos hc]
      · rw [if_neg hc]
        have hobj : colObjectOrDatetime c.2 = false := by
          by_contra hb
          exact hc (h c (List.mem_cons_self c cs)
            (Bool.of_not_eq_false hb))
        rw [hmapid c.2 hobj]
  apply main
  intro c hc hobj
  exact List.mem_map_of_mem Prod.fst (List.mem_filter.mpr ⟨hc, hobj⟩)

/-! Helper lemmas about dropDupAux for the deduplication claim. -/

theorem dropDupAux_sublist (l : List Row) :
    ∀ seen, List.Sublist (dropDupAux seen l) l := by
  induction l with
  | nil => intro seen; simp [dropDupAux]
  | cons r rs ih =>
    intro seen
    by_cases h : r ∈ seen
    · simp only [dropDupAux, if_pos h]
      exact (ih seen).cons r
    · simp only [dropDupAux, if_neg h]
      exact (ih (r :: seen)).cons₂ r

theorem dropDupAux_not_mem (l : List Row) :
    ∀ seen x, x ∈ seen → x ∉ dropDupAux seen l := by
  induction l with
  | nil => intro seen x _ hx; simp [dropDupAux] at hx
  | cons r rs ih =>
    intro seen x hxs hx
    by_cases h : r ∈ seen
    · simp only [dropDupAux, if_pos h] at hx
      exact ih seen x hxs hx
    · simp only [dropDupAux, if_neg h] at hx
      rcases List.mem_cons.mp hx with rfl | hx2
      · exact h hxs
      · exact ih (r :: seen) x (List.mem_cons_of_mem r hxs) hx2

theorem dropDupAux_nodup (l : List Row) :
    ∀ seen, (dropDupAux seen l).Nodup := by
  induction l with
  | nil => intro seen; simp [dropDupAux]
  | cons r rs ih =>
    intro seen
    by_cases h : r ∈ seen
    · simp only [dropDupAux, if_pos h]; exact ih seen
    · simp only [dropDupAux, if_neg h]
      exact List.nodup_cons.mpr
        ⟨dropDupAux_not_mem rs (r :: seen) r (List.mem_cons_self r seen),
          ih (r :: seen)⟩

theorem dropDupAux_mem (l : List Row) :
    ∀ seen x, x ∈ dropDupAux seen l ↔ (x ∈ l ∧ x ∉ seen) := by
  induction l with
  | nil => intro seen x; simp [dropDupAux]
  | cons r rs ih =>
    intro seen x
    by_cases h : r ∈ seen
    · simp only [dropDupAux, if_pos h]
      rw [ih seen x]
      constructor
      · rintro ⟨h1, h2⟩; exact ⟨List.mem_cons_of_mem r h1, h2⟩
      · rintro ⟨h1, h2⟩
        rcases List.mem_cons.mp h1 with rfl | h3
        · exact absurd h h2
        · exact ⟨h3, h2⟩
    · simp only [dropDupAux, if_neg h]
      constructor
      · intro hx
        rcases List.mem_cons.mp hx with rfl | hx2
        · exact ⟨List.mem_cons_self x rs, h⟩
        · obtain ⟨h1, h2⟩ := (ih (r :: seen) x).mp hx2
          exact ⟨List.mem_cons_of_mem r h1,
            fun hs => h2 (List.mem_cons_of_mem r hs)⟩
      · rintro ⟨h1, h2⟩
        by_cases hxr : x = r
        · subst hxr; exact List.mem_cons_self x _
        · rcases List.mem_cons.mp h1 with rfl | h3
          · exact absurd rfl hxr
          · exact List.mem_cons_of_mem r ((ih (r :: seen) x).mpr
              ⟨h3, fun hs => (List.mem_cons.mp hs).elim hxr h2⟩)

theorem dropDupAux_of_nodup (l : List Row) :
    ∀ seen, l.Nodup → (∀ x ∈ l, x ∉ seen) → dropDupAux seen l = l := by
  induction l with
  | nil => intro seen _ _; rfl
  | cons r rs ih =>
    intro seen hnd h
    have hr : r ∉ seen := h r (List.mem_cons_self r rs)
    simp only [dropDupAux, if_neg hr]
    congr 1
    apply ih (r :: seen) (List.nodup_cons.mp hnd).2
    intro x hx hmem
    rcases List.mem_cons.mp hmem with rfl | h2
    · exact (List.nodup_cons.mp hnd).1 hx
    · exact h x (List.mem_cons_of_mem r hx) h2

theorem dropDupAux_eq_spec (l : List Row) :
    ∀ seen, dropDupAux seen l = (List.range l.length).filterMap (fun i =>
      match l.get? i with
      | some r => if r ∈ seen ∨ r ∈ l.take i then none else some r
      | none => none) := by
  induction l with
  | nil => intro seen; rfl
  | cons a tl ih =>
    intro seen
    rw [List.length_cons, List.range_succ_eq_map, List.filterMap_cons,
      List.filterMap_map]
    have hhead : (match (a :: tl).get? 0 with
        | some r => if r ∈ seen ∨ r ∈ (a :: tl).take 0 then none else some r
        | none => none) = if a ∈ seen then none else some a := by
      show (if a ∈ seen ∨ a ∈ ([] : List Row) then none else some a) =
        if a ∈ seen then none else some a
      refine if_congr ?_ rfl rfl
      simp
    rw [hhead]
    have htail : ∀ seen2 : List Row,
        (∀ r : Row, (r ∈ seen2) ↔ (r ∈ seen ∨ r = a)) →
        ((List.range tl.length).filterMap (fun i =>
          match tl.get? i with
          | some r => if r ∈ seen2 ∨ r ∈ tl.take i then none else some r
          | none => none)) =
        ((List.range tl.length).filterMap ((fun i =>
          match (a :: tl).get? i with
          | some r => if r ∈ seen ∨ r ∈ (a :: tl).take i then none else some r
          | none => none) ∘ Nat.succ)) := by
      intro seen2 hseen2
      apply filterMap_congrH
      intro i _
      show (match tl.get? i with
            | some r => if r ∈ seen2 ∨ r ∈ tl.take i then none else some r
            | none => none) =
          (match (a :: tl).get? (i + 1) with
            | some r => if r ∈ seen ∨ r ∈ (a :: tl).take (i + 1) then none
                else some r
            | none => none)
      rw [List.get?_cons_succ, List.take_succ_cons]
      cases hg : tl.get? i with
      | none => rfl
      | some r =>
        show (if r ∈ seen2 ∨ r ∈ tl.take i then none else some r) =
          if r ∈ seen ∨ r ∈ a :: tl.take i then none else some r
        refine if_congr ?_ rfl rfl
        rw [hseen2 r]
        constructor
        · rintro ((hs | rfl) | hc)
          · exact Or.inl hs
          · exact Or.inr (List.mem_cons_self r _)
          · exact Or.inr (List.mem_cons_of_mem a hc)
        · rintro (hs | hc)
          · exact Or.inl (Or.inl hs)
          · rcases List.mem_cons.mp hc with rfl | hc2
            · exact Or.inl (Or.inr rfl)
            · exact Or.inr hc2
    by_cases h : a ∈ seen
    · rw [if_pos h]
      simp only [dropDupAux, if_pos h]
      rw [ih seen]
      exact htail seen (fun r => by
        constructor
        · exact fun hr => Or.inl hr
        · rintro (hr | rfl)
          · exact hr
          · exact h)
    · rw [if_neg h]
      simp only [dropDupAux, if_neg h]
      rw [ih (a :: seen)]
      rw [htail (a :: seen) (fun r => by
        constructor
        · intro hr
          rcases List.mem_cons.mp hr with rfl | h2
          · exact Or.inr rfl
          · exact Or.inl h2
        · rintro (hr | rfl)
          · exact List.mem_cons_of_mem a hr
          · exact List.mem_cons_self r _)]

/-! C9. DataFrame.drop_duplicates removes exactly the rows equal to an
earlier row, keeps the first occurrence, preserves the relative order of
the surviving rows, and is idempotent. -/

/-- C9: drop_duplicates equals the spec's first-occurrence selection (a
row survives exactly when no earlier row equals it, in original order),
its output is a sublist of the input (so the relative order of survivors
is preserved and no new row appears), it keeps every distinct row value,
its output has no duplicate row, and it is idempotent. -/
theorem drop_duplicates_correct (rows : List Row) :
    drop_duplicates rows = specFirstOccurrences rows ∧
    List.Sublist (drop_duplicates rows) rows ∧
    (∀ r, r ∈ drop_duplicates rows ↔ r ∈ rows) ∧
    (drop_duplicates rows).Nodup ∧
    drop_duplicates (drop_duplicates rows) = drop_duplicates rows := by
  refine ⟨?_, dropDupAux_sublist rows [], ?_, dropDupAux_nodup rows [], ?_⟩
  · rw [drop_duplicates, dropDupAux_eq_spec rows []]
    unfold specFirstOccurrences
    apply filterMap_congrH
    intro i _
    cases hg : rows.get? i with
    | none => simp only [hg]
    | some r =>
      simp only [hg]
      refine if_congr ?_ rfl rfl
      simp
  · intro r
    rw [drop_duplicates, dropDupAux_mem rows [] r]
    simp
  · exact dropDupAux_of_nodup (drop_duplicates rows) []
      (dropDupAux_nodup rows []) (fun x _ hx => by simp at hx)

/-! Helper lemmas for the player-key claim. -/

theorem natToCharsFuel_small (fuel n : Nat) (h1 : 1 ≤ fuel) (h2 : n < 10) :
    natToCharsFuel fuel n = [digitChar n] := by
  match fuel with
  | 0 => omega
  | fuel + 1 => rw [natToCharsFuel, if_pos h2]

theorem natToChars_length_le_two (n : Nat) (h : n ≤ 99) :
    (natToChars n).length ≤ 2 := by
  unfold natToChars
  by_cases h1 : n < 10
  · rw [natToCharsFuel_small (n + 1) n (by omega) h1]
    simp
  · have hdiv : n / 10 < 10 := by
      apply Nat.div_lt_of_lt_mul
      omega
    rw [natToCharsFuel, if_neg h1,
      natToCharsFuel_small n (n / 10) (by omega) hdiv]
    simp

theorem zfill2_length (n : Nat) (h : n ≤ 99) : (zfill2 n).length = 2 := by
  unfold zfill2
  have hl := natToChars_length_le_two n h
  by_cases h2 : (natToChars n).length < 2
  · rw [if_pos h2]
    simp only [List.length_append, List.length_replicate]
    omega
  · rw [if_neg h2]
    omega

theorem ljust9_length (cs : List Char) (h : cs.length ≤ 9) :
    (ljust9 cs).length = 9 := by
  unfold ljust9
  simp only [List.length_append, List.length_replicate]
  omega

theorem rankKeys_length (bs : List (Option (List Char))) :
    ∀ prev, (rankKeys prev bs).length = bs.length := by
  induction bs with
  | nil => intro prev; rfl
  | cons b tl ih =>
    intro prev
    show (keyOfBase prev b :: rankKeys (prev ++ [b]) tl).length = tl.length + 1
    rw [List.length_cons, ih (prev ++ [b])]

theorem rankKeys_get? (bs : List (Option (List Char))) :
    ∀ (prev : List (Option (List Char))) (i : Nat),
      (rankKeys prev bs).get? i =
        (bs.get? i).map (keyOfBase (prev ++ bs.take i)) := by
  induction bs with
  | nil => intro prev i; simp [rankKeys]
  | cons b tl ih =>
    intro prev i
    match i with
    | 0 =>
      simp only [rankKeys, List.get?_cons_zero, List.take_zero,
        List.append_nil, Option.map_some']
    | i + 1 =>
      show (rankKeys (prev ++ [b]) tl).get? i = _
      rw [ih (prev ++ [b]) i]
      simp only [List.get?_cons_succ, List.take_succ_cons,
        List.append_assoc, List.singleton_append]

/-! C4. The claim says the player key is built from the LAST name token's
first five letters. build_ids uses prefixes[1], the SECOND token (falling
back to the first when there is only one), so for names with a suffix
token such as "Gary Payton II" the code and the claim disagree. -/

/-- C4 counterexample: "Gary Payton II" has cleaned tokens gary, payton,
ii; the claimed key from the last token is "iiga01000", but build_ids
produces "paytoga01" from the second token. -/
theorem build_ids_claim_cex :
    cleanNameTokens "Gary Payton II" =
      [['g', 'a', 'r', 'y'], ['p', 'a', 'y', 't', 'o', 'n'], ['i', 'i']] ∧
    build_ids ["Gary Payton II"] = Except.ok [some "paytoga01"] ∧
    String.mk (ljust9 ((['i', 'i'].take 5 ++ ['g', 'a', 'r', 'y'].take 2) ++
      zfill2 (0 + 1))) = "iiga01000" ∧
    (some "paytoga01" : Option String) ≠ some "iiga01000" :=
  ⟨by decide, rfl, by decide, by decide⟩

/-- C4 amended: when no name in the run has a second whitespace token
(an empty frame included) build_ids raises (the prefixes[1] column access
is a KeyError). Otherwise it returns one key per name in order; a name
whose cleaned tokens are empty gets a missing key; every other key is the
SECOND token's first five letters (the first token when that row has only
one), then the first token's first two letters, then one plus the number
of earlier names with the same collision base, zero-filled to two digits,
all right-padded with zeros to nine characters — exactly nine when the
collision rank stays below one hundred. -/
theorem build_ids_amended (names : List String) :
    ((∀ nm ∈ names, (cleanNameTokens nm).length ≤ 1) →
      build_ids names = Except.error ()) ∧
    (∀ out, build_ids names = Except.ok out →
      out.length = names.length ∧
      (∀ i nm, names.get? i = some nm → cleanNameTokens nm = [] →
        out.get? i = some none) ∧
      (∀ i nm t0 rest, names.get? i = some nm →
        cleanNameTokens nm = t0 :: rest →
        out.get? i = some (some (String.mk (ljust9
          (((rest.headD t0).take 5 ++ t0.take 2) ++
            zfill2 (((names.take i).map baseOf).count (baseOf nm) + 1))))))) ∧
    (∀ (t0 : List Char) (rest : List (List Char)) (k : Nat), k ≤ 99 →
      (String.mk (ljust9 (((rest.headD t0).take 5 ++ t0.take 2) ++
        zfill2 k))).length = 9) := by
  refine ⟨?_, ?_, ?_⟩
  · intro h
    have hany : ¬(names.any (fun nm => 2 ≤ (cleanNameTokens nm).length) = true) := by
      intro hc
      obtain ⟨nm, hnm, hp⟩ := List.any_eq_true.mp hc
      have h1 := h nm hnm
      have h2 : 2 ≤ (cleanNameTokens nm).length := by simpa using hp
      omega
    rw [build_ids, if_neg hany]
  · intro out hout
    have hkeys : out = rankKeys [] (names.map baseOf) := by
      by_cases hg : names.any (fun nm => 2 ≤ (cleanNameTokens nm).length) = true
      · rw [build_ids, if_pos hg] at hout
        exact (Except.ok.inj hout).symm
      · rw [build_ids, if_neg hg] at hout
        cases hout
    subst hkeys
    refine ⟨?_, ?_, ?_⟩
    · rw [rankKeys_length (names.map baseOf) [], List.length_map]
    · intro i nm hi htok
      rw [rankKeys_get? (names.map baseOf) [] i, List.get?_map, hi,
        Option.map_some']
      have hb : baseOf nm = none := by
        unfold baseOf
        rw [htok]
      rw [hb]
      rfl
    · intro i nm t0 rest hi htok
      rw [rankKeys_get? (names.map baseOf) [] i, List.get?_map, hi,
        Option.map_some']
      have hb : baseOf nm = some ((rest.headD t0).take 5 ++ t0.take 2) := by
        unfold baseOf
        rw [htok]
      rw [hb, List.map_take, List.nil_append]
      rfl
  · intro t0 rest k hk
    have hmk : ∀ l : List Char, (String.mk l).length = l.length := fun l => rfl
    rw [hmk]
    apply ljust9_length
    have h5 : ((rest.headD t0).take 5).length ≤ 5 := by
      rw [List.length_take]
      omega
    have h2 : (t0.take 2).length ≤ 2 := by
      rw [List.length_take]
      omega
    have hz := zfill2_length k hk
    simp only [List.length_append]
    omega

/-- C4 amended, witness: a run of one single-token name raises, while a
run of two equal two-token names succeeds, the second key collides into
rank 02, and the key has nine characters. -/
theorem build_ids_amended_witness :
    build_ids ["Cher"] = Except.error () ∧
    build_ids ["LeBron James", "LeBron James"] =
      Except.ok [some "jamesle01", some "jamesle02"] ∧
    ([some "jamesle01", (some "jamesle02" : Option String)]).length = 2 ∧
    ([some "jamesle01", (some "jamesle02" : Option String)]).get? 1 =
      some (some "jamesle02") ∧
    ("jamesle02" : String).length = 9 := by
  have herr : ∀ nm ∈ ["Cher"], (cleanNameTokens nm).length ≤ 1 := by
    intro nm hm
    rw [List.mem_singleton.mp hm]
    decide
  have hok : build_ids ["LeBron James", "LeBron James"] =
      Except.ok [some "jamesle01", some "jamesle02"] := rfl
  obtain ⟨hlen, _, h3⟩ :=
    (build_ids_amended ["LeBron James", "LeBron James"]).2.1
      [some "jamesle01", some "jamesle02"] hok
  have hkey := h3 1 "LeBron James" ['l', 'e', 'b', 'r', 'o', 'n']
    [['j', 'a', 'm', 'e', 's']] rfl (by decide)
  refine ⟨(build_ids_amended ["Cher"]).1 herr, hok, by simp, ?_, by decide⟩
  rw [hkey]
  decide

end NBA
